import Mathlib

/-!
Verification of the FFI verification boundary of `bls-snark-sys`
(`src/crates/bls-snark-sys/src/snark/mod.rs`).

The file shallowly embeds the `verify` FFI entry point and the pipeline it
runs.  Caller memory is modelled as a total map from addresses to byte
values; a pointer is an address, with address `0` the null pointer.  The
collaborating pieces that are not part of the given source file
(`read_slice` and `EpochBlockFFI` from `epoch_block.rs`,
`convert_result_to_bool` from the crate root, and the external
`epoch_snark` library) are modelled from the specification, as marked on
each definition.  The external collaborator (public-key decoder and Groth16
verifier) is kept abstract as a record of arbitrary functions, each of which
may succeed, report an error, or fault (panic-equivalent).
-/

namespace BlsSnark

/-- Caller memory: a byte value at every address. -/
def Mem : Type := Nat → Nat

/-- A byte sequence, owned by this process after marshaling. -/
abbrev Bytes := List Nat

/-- Error taxonomy of the pipeline (spec §7): null/zero-length buffer,
public-key chunk failing to decode, external-verifier error. -/
inductive Error : Type
  | invalidInput
  | keyDecodeError
  | verifierError
  deriving DecidableEq, Repr

/-- Outcome of a pipeline step: success, a reportable error, or a
panic-equivalent fault raised by a collaborator. -/
inductive Outcome (α : Type) : Type
  | ok (a : α)
  | error (e : Error)
  | panic

/-- Sequencing of pipeline steps: errors and faults short-circuit
(the `?` operator of the source). -/
def obind {α β : Type} : Outcome α → (α → Outcome β) → Outcome β
  | .ok a, f => f a
  | .error e, _ => .error e
  | .panic, _ => .panic

/-- Lift a fault-free fallible computation into the outcome monad. -/
def liftExcept {α : Type} : Except Error α → Outcome α
  | .ok a => .ok a
  | .error e => .error e

/-- Outcome of one call to the external public-key decoder: a decoded
key, a decode error, or a fault inside the external library. -/
inductive DecOutcome (PK : Type) : Type
  | ok (k : PK)
  | err
  | panic

/-- Outcome of one call to the external Groth16 verifier
(`epoch_snark::verify` returns success or an error; it may also fault). -/
inductive SnarkOutcome : Type
  | ok
  | err
  | panic

/-- Fixed byte size of one compressed serialized public key, set by the
external library's encoding (96 bytes: the test vectors in
`snark/mod.rs` carry 4 public keys in 384 bytes). -/
def KEY_ENCODING_SIZE : Nat := 96

/-- The foreign-layout epoch descriptor `EpochBlockFFI`
(fields as used by `snark/mod.rs`: `index`, `maximum_non_signers`,
`pubkeys_num`, and the `pubkeys` buffer pointer). -/
structure EpochBlockFFI : Type where
  index : Nat
  maximum_non_signers : Nat
  pubkeys_num : Nat
  pubkeys : Nat

/-- The validated domain value `epoch_snark::EpochBlock`: descriptor
fields with the key buffer replaced by the ordered decoded key list. -/
structure EpochBlock (PK : Type) : Type where
  index : Nat
  maximum_non_signers : Nat
  pubkeys : List PK

/-- Behaviour of the external collaborator (spec §6): the fixed-size
public-key decoder and the transition-proof verifier, both arbitrary. -/
structure Extern (PK : Type) : Type where
  decode : Bytes → DecOutcome PK
  snarkVerify : Bytes → EpochBlock PK → EpochBlock PK → Bytes → SnarkOutcome

/-- Modelled from the spec: `read_slice` of `epoch_block.rs` (not under
`src/`), per spec §4.1.  Fails with `InvalidInput` when the length is zero
or the pointer is null; otherwise reads exactly `len` bytes starting at
`ptr` into an owned sequence. -/
def read_slice (mem : Mem) (ptr len : Nat) : Except Error Bytes :=
  if len = 0 ∨ ptr = 0 then .error .invalidInput
  else .ok ((List.range len).map fun i => mem (ptr + i))

/-- Split a marshaled key buffer into `count` fixed-size chunks in buffer
order: chunk `i` is the `size` bytes at offset `i * size`. -/
def chunksOf (size : Nat) (bs : Bytes) (count : Nat) : List Bytes :=
  (List.range count).map fun i => (bs.drop (i * size)).take size

/-- Decode the chunks left to right with the external decoder, failing
with `KeyDecodeError` at the first chunk that does not decode and
propagating a decoder fault. -/
def decodeKeys {PK : Type} (decode : Bytes → DecOutcome PK) :
    List Bytes → Outcome (List PK)
  | [] => .ok []
  | c :: cs =>
    match decode c with
    | .ok k => obind (decodeKeys decode cs) fun ks => .ok (k :: ks)
    | .err => .error .keyDecodeError
    | .panic => .panic

/-- Modelled from the spec: `EpochBlock::try_from (&EpochBlockFFI)`
(implementation not under `src/`), per spec §4.2.  Reads
`pubkeys_num * KEY_ENCODING_SIZE` bytes from the key buffer, splits them
into `pubkeys_num` fixed-size chunks in buffer order, decodes each chunk,
and carries `index` and `maximum_non_signers` over unchanged. -/
def epochBlockTryFrom {PK : Type} (ext : Extern PK) (mem : Mem)
    (src : EpochBlockFFI) : Outcome (EpochBlock PK) :=
  obind (liftExcept (read_slice mem src.pubkeys
      (src.pubkeys_num * KEY_ENCODING_SIZE))) fun bytes =>
  obind (decodeKeys ext.decode
      (chunksOf KEY_ENCODING_SIZE bytes src.pubkeys_num)) fun keys =>
  .ok { index := src.index, maximum_non_signers := src.maximum_non_signers,
        pubkeys := keys }

/-- Lift one external-verifier call into the pipeline outcome. -/
def snarkToOutcome : SnarkOutcome → Outcome Unit
  | .ok => .ok ()
  | .err => .error .verifierError
  | .panic => .panic

/-- The fallible pipeline of `verify` in the source's order
(`snark/mod.rs`, the closure passed to `convert_result_to_bool`): build
the first `EpochBlock`, build the last `EpochBlock`, marshal the verifying
key, marshal the proof, call `epoch_snark::verify`. -/
def verifyPipeline {PK : Type} (ext : Extern PK) (mem : Mem)
    (vk vk_len proof proof_len : Nat)
    (first_epoch last_epoch : EpochBlockFFI) : Outcome Unit :=
  obind (epochBlockTryFrom ext mem first_epoch) fun firstB =>
  obind (epochBlockTryFrom ext mem last_epoch) fun lastB =>
  obind (liftExcept (read_slice mem vk vk_len)) fun vkBytes =>
  obind (liftExcept (read_slice mem proof proof_len)) fun proofBytes =>
  snarkToOutcome (ext.snarkVerify vkBytes firstB lastB proofBytes)

/-- What the foreign caller observes: a clean boolean return, or an
uncaught fault crossing the boundary. -/
inductive FFIResult : Type
  | ret (b : Bool)
  | fault
  deriving DecidableEq, Repr

/-- Modelled from the spec: `convert_result_to_bool` of the crate root
(not under `src/`), per spec §4.3 and §9: success becomes `true`, every
error variant becomes `false`, and any unexpected fault is caught at the
same boundary and also becomes `false`. -/
def convert_result_to_bool {α : Type} : Outcome α → FFIResult
  | .ok _ => .ret true
  | .error _ => .ret false
  | .panic => .ret false

/-- The FFI entry point `verify` of `snark/mod.rs`: the pipeline wrapped
in `convert_result_to_bool`. -/
def verify {PK : Type} (ext : Extern PK) (mem : Mem)
    (vk vk_len proof proof_len : Nat)
    (first_epoch last_epoch : EpochBlockFFI) : FFIResult :=
  convert_result_to_bool
    (verifyPipeline ext mem vk vk_len proof proof_len first_epoch last_epoch)

/-- The five pipeline stages of `verify`. -/
inductive Stage : Type
  | buildFirst
  | buildLast
  | marshalVK
  | marshalProof
  | extVerify
  deriving DecidableEq, Repr, Fintype

/-- The stage order actually written in `snark/mod.rs`: both epoch blocks
are built before either byte buffer is marshaled. -/
def codeStageOrder : List Stage :=
  [.buildFirst, .buildLast, .marshalVK, .marshalProof, .extVerify]

/-- The stage order the specification asserts (spec §4.3: marshal VK
bytes, marshal proof bytes, build first EpochBlock, build last EpochBlock,
external verifier call), stated from the spec's words for comparison with
the source's order. -/
def specClaimedStageOrder : List Stage :=
  [.marshalVK, .marshalProof, .buildFirst, .buildLast, .extVerify]

/-- `verify` instrumented with the list of stages it begins, in execution
order; the same computation as `verify`, stage by stage. -/
def verifyTrace {PK : Type} (ext : Extern PK) (mem : Mem)
    (vk vk_len proof proof_len : Nat)
    (first_epoch last_epoch : EpochBlockFFI) : FFIResult × List Stage :=
  match epochBlockTryFrom ext mem first_epoch with
  | .error _ => (.ret false, [.buildFirst])
  | .panic => (.ret false, [.buildFirst])
  | .ok firstB =>
    match epochBlockTryFrom ext mem last_epoch with
    | .error _ => (.ret false, [.buildFirst, .buildLast])
    | .panic => (.ret false, [.buildFirst, .buildLast])
    | .ok lastB =>
      match read_slice mem vk vk_len with
      | .error _ => (.ret false, [.buildFirst, .buildLast, .marshalVK])
      | .ok vkBytes =>
        match read_slice mem proof proof_len with
        | .error _ =>
          (.ret false, [.buildFirst, .buildLast, .marshalVK, .marshalProof])
        | .ok proofBytes =>
          (convert_result_to_bool
              (snarkToOutcome (ext.snarkVerify vkBytes firstB lastB proofBytes)),
           [.buildFirst, .buildLast, .marshalVK, .marshalProof, .extVerify])

/-- `decodeKeys` instrumented with the number of decoder invocations. -/
def decodeKeysCount {PK : Type} (decode : Bytes → DecOutcome PK) :
    List Bytes → Outcome (List PK) × Nat
  | [] => (.ok [], 0)
  | c :: cs =>
    match decode c with
    | .ok k =>
      let r := decodeKeysCount decode cs
      (obind r.1 fun ks => .ok (k :: ks), r.2 + 1)
    | .err => (.error .keyDecodeError, 1)
    | .panic => (.panic, 1)

/-- Two memories agreeing byte for byte on an address range. -/
def AgreesOn (m1 m2 : Mem) (ptr len : Nat) : Prop :=
  ∀ i, i < len → m1 (ptr + i) = m2 (ptr + i)

/-! ### Concrete instances used to exercise the theorems -/

/-- A concrete external collaborator whose decoder and verifier always
succeed (decoded keys are drawn from `Nat`). -/
def wExt : Extern Nat :=
  { decode := fun _ => .ok 0, snarkVerify := fun _ _ _ _ => .ok }

/-- A concrete external collaborator whose decoder always reports a
decode error. -/
def wExtBadKeys : Extern Nat :=
  { decode := fun _ => .err, snarkVerify := fun _ _ _ _ => .ok }

/-- A concrete caller memory holding byte `1` everywhere. -/
def wMem : Mem := fun _ => 1

/-- A concrete caller memory agreeing with `wMem` on low addresses only. -/
def wMem2 : Mem := fun a => if a < 200 then 1 else 0

/-- A concrete epoch descriptor declaring one public key at address 1. -/
def wFFI : EpochBlockFFI :=
  { index := 0, maximum_non_signers := 1, pubkeys_num := 1, pubkeys := 1 }

/-- A concrete epoch descriptor declaring zero public keys. -/
def wFFI0 : EpochBlockFFI :=
  { index := 0, maximum_non_signers := 1, pubkeys_num := 0, pubkeys := 1 }

/-! ### Helper lemmas -/

/-- The instrumented pipeline computes the same result as `verify`. -/
theorem verifyTrace_fst {PK : Type} (ext : Extern PK) (mem : Mem)
    (vk vk_len proof proof_len : Nat) (first_epoch last_epoch : EpochBlockFFI) :
    (verifyTrace ext mem vk vk_len proof proof_len first_epoch last_epoch).1 =
      verify ext mem vk vk_len proof proof_len first_epoch last_epoch := by
  unfold verifyTrace verify verifyPipeline
  cases epochBlockTryFrom ext mem first_epoch <;>
    simp [obind, convert_result_to_bool]
  cases epochBlockTryFrom ext mem last_epoch <;>
    simp [obind, convert_result_to_bool]
  cases read_slice mem vk vk_len <;>
    simp [obind, liftExcept, convert_result_to_bool]
  cases read_slice mem proof proof_len <;>
    simp [obind, liftExcept, convert_result_to_bool]

/-- The instrumented decoder computes the same outcome as `decodeKeys`. -/
theorem decodeKeysCount_fst {PK : Type} (decode : Bytes → DecOutcome PK) :
    ∀ cs : List Bytes, (decodeKeysCount decode cs).1 = decodeKeys decode cs := by
  intro cs
  induction cs with
  | nil => rfl
  | cons c cs ih =>
    unfold decodeKeysCount decodeKeys
    cases decode c <;> simp [ih]

/-- A successful `decodeKeys` run returns one key per chunk, in chunk
order: the output has the chunk list's length and position `i` holds the
decode of chunk `i`. -/
theorem decodeKeys_ok_spec {PK : Type} (decode : Bytes → DecOutcome PK) :
    ∀ (cs : List Bytes) (ks : List PK), decodeKeys decode cs = .ok ks →
      ks.length = cs.length ∧
      ∀ i (hc : i < cs.length) (hk : i < ks.length),
        decode (cs.get ⟨i, hc⟩) = .ok (ks.get ⟨i, hk⟩) := by
  intro cs
  induction cs with
  | nil =>
    intro ks h
    cases ks with
    | nil => exact ⟨rfl, fun i hc _ => absurd hc (Nat.not_lt_zero i)⟩
    | cons k ks => simp [decodeKeys] at h
  | cons c cs ih =>
    intro ks h
    unfold decodeKeys at h
    cases hd : decode c with
    | ok k =>
      rw [hd] at h
      cases hr : decodeKeys decode cs with
      | ok ks0 =>
        rw [hr] at h
        simp [obind] at h
        subst h
        obtain ⟨hlen, hidx⟩ := ih ks0 hr
        refine ⟨by simp [hlen], ?_⟩
        intro i hc hk
        cases i with
        | zero => simpa using hd
        | succ j =>
          simp only [List.get_cons_succ]
          exact hidx j (by simpa using hc) (by simpa using hk)
      | error e => rw [hr] at h; simp [obind] at h
      | panic => rw [hr] at h; simp [obind] at h
    | err => rw [hd] at h; simp at h
    | panic => rw [hd] at h; simp at h

/-- If every chunk before position `i` decodes and chunk `i` reports a
decode error, `decodeKeys` fails with `KeyDecodeError` after exactly
`i + 1` decoder invocations. -/
theorem decodeKeys_first_fail {PK : Type} (decode : Bytes → DecOutcome PK) :
    ∀ (cs : List Bytes) (i : Nat) (hi : i < cs.length),
      (∀ j (hj : j < cs.length), j < i → ∃ k, decode (cs.get ⟨j, hj⟩) = .ok k) →
      decode (cs.get ⟨i, hi⟩) = .err →
      decodeKeys decode cs = .error .keyDecodeError ∧
      (decodeKeysCount decode cs).2 = i + 1 := by
  intro cs
  induction cs with
  | nil => intro i hi; exact absurd hi (Nat.not_lt_zero i)
  | cons c cs ih =>
    intro i hi hpre hfail
    cases i with
    | zero =>
      simp only [List.get] at hfail
      constructor
      · unfold decodeKeys; rw [hfail]
      · unfold decodeKeysCount; rw [hfail]
    | succ j =>
      have hc : decode c ≠ DecOutcome.err := by
        obtain ⟨k, hk⟩ := hpre 0 (by simp) (Nat.succ_pos j)
        simp only [List.get] at hk
        simp [hk]
      cases hd : decode c with
      | ok k =>
        have hj : j < cs.length := by simpa using hi
        have hrec := ih j hj
          (fun m hm hmj => by
            have := hpre (m + 1) (by simpa using Nat.succ_lt_succ hm)
              (Nat.succ_lt_succ hmj)
            simpa using this)
          (by simpa using hfail)
        constructor
        · unfold decodeKeys; rw [hd, hrec.1]; rfl
        · unfold decodeKeysCount; rw [hd]; simp [hrec.2]
      | err => exact absurd hd hc
      | panic =>
        obtain ⟨k, hk⟩ := hpre 0 (by simp) (Nat.succ_pos j)
        simp only [List.get] at hk
        rw [hd] at hk
        cases hk

/-- When an epoch descriptor declares zero public keys, building its
`EpochBlock` fails with `InvalidInput` (the zero-length key read). -/
theorem tryFrom_zero_pubkeys {PK : Type} (ext : Extern PK) (mem : Mem)
    (src : EpochBlockFFI) (h : src.pubkeys_num = 0) :
    epochBlockTryFrom ext mem src = .error .invalidInput := by
  unfold epochBlockTryFrom
  rw [h]
  simp [read_slice, liftExcept, obind]

/-- A successful `epochBlockTryFrom` run decomposes into a successful key
read and a successful decode of its chunks, with the scalar fields copied
over. -/
theorem tryFrom_ok_parts {PK : Type} (ext : Extern PK) (mem : Mem)
    (src : EpochBlockFFI) (block : EpochBlock PK)
    (h : epochBlockTryFrom ext mem src = .ok block) :
    block.index = src.index ∧
    block.maximum_non_signers = src.maximum_non_signers ∧
    ∃ bytes,
      read_slice mem src.pubkeys (src.pubkeys_num * KEY_ENCODING_SIZE) =
        .ok bytes ∧
      decodeKeys ext.decode (chunksOf KEY_ENCODING_SIZE bytes src.pubkeys_num) =
        .ok block.pubkeys := by
  unfold epochBlockTryFrom at h
  cases hr : read_slice mem src.pubkeys (src.pubkeys_num * KEY_ENCODING_SIZE) with
  | error e => rw [hr] at h; simp [liftExcept, obind] at h
  | ok bytes =>
    rw [hr] at h
    simp only [liftExcept, obind] at h
    cases hd : decodeKeys ext.decode (chunksOf KEY_ENCODING_SIZE bytes src.pubkeys_num) with
    | ok ks =>
      rw [hd] at h
      simp only [obind, Outcome.ok.injEq] at h
      subst h
      exact ⟨rfl, rfl, bytes, rfl, hd⟩
    | error e => rw [hd] at h; simp [obind] at h
    | panic => rw [hd] at h; simp [obind] at h

/-- Memory agreement on a range makes `read_slice` agree there. -/
theorem read_slice_congr (m1 m2 : Mem) (ptr len : Nat)
    (h : AgreesOn m1 m2 ptr len) :
    read_slice m1 ptr len = read_slice m2 ptr len := by
  unfold read_slice
  split
  · rfl
  · congr 1
    refine List.map_congr_left ?_
    intro i hi
    exact h i (List.mem_range.mp hi)

/-- Memory agreement on the key buffer makes `epochBlockTryFrom` agree. -/
theorem tryFrom_congr {PK : Type} (ext : Extern PK) (m1 m2 : Mem)
    (src : EpochBlockFFI)
    (h : AgreesOn m1 m2 src.pubkeys (src.pubkeys_num * KEY_ENCODING_SIZE)) :
    epochBlockTryFrom ext m1 src = epochBlockTryFrom ext m2 src := by
  unfold epochBlockTryFrom
  rw [read_slice_congr m1 m2 _ _ h]

/-! ### Claim theorems -/

/-- C1: `verify` returns `true` exactly when every pipeline stage succeeds
and the external verifier's check succeeds; every failure (error or
internal fault at any stage) returns `false`; and no error kind is
distinguishable through the return value. -/
theorem verify_collapses_to_bool {PK : Type} (ext : Extern PK) (mem : Mem)
    (vk vk_len proof proof_len : Nat) (f l : EpochBlockFFI) :
    (verify ext mem vk vk_len proof proof_len f l = .ret true ↔
      verifyPipeline ext mem vk vk_len proof proof_len f l = .ok ()) ∧
    (∀ e, verifyPipeline ext mem vk vk_len proof proof_len f l = .error e →
      verify ext mem vk vk_len proof proof_len f l = .ret false) ∧
    (verifyPipeline ext mem vk vk_len proof proof_len f l = .panic →
      verify ext mem vk vk_len proof proof_len f l = .ret false) ∧
    (∀ e e' : Error, convert_result_to_bool (Outcome.error e : Outcome Unit) =
      convert_result_to_bool (Outcome.error e' : Outcome Unit)) := by
  unfold verify
  cases h : verifyPipeline ext mem vk vk_len proof proof_len f l with
  | ok a => cases a; simp [convert_result_to_bool]
  | error e => simp [convert_result_to_bool]
  | panic => simp [convert_result_to_bool]

/-- C1 witness: at a concrete input with zero-length buffers the pipeline
fails with `InvalidInput` and `verify` returns `false`. -/
theorem verify_collapses_to_bool_witness :
    verify wExt wMem 0 0 0 0 wFFI0 wFFI0 = .ret false :=
  (verify_collapses_to_bool wExt wMem 0 0 0 0 wFFI0 wFFI0).2.1
    Error.invalidInput rfl

/-- C2: `verify` never lets a fault cross the foreign boundary: for every
input and every behaviour of the external collaborator, it returns a clean
boolean. -/
theorem verify_never_faults {PK : Type} (ext : Extern PK) (mem : Mem)
    (vk vk_len proof proof_len : Nat) (f l : EpochBlockFFI) :
    ∃ b : Bool, verify ext mem vk vk_len proof proof_len f l = .ret b := by
  unfold verify
  cases verifyPipeline ext mem vk vk_len proof proof_len f l with
  | ok a => exact ⟨true, rfl⟩
  | error e => exact ⟨false, rfl⟩
  | panic => exact ⟨false, rfl⟩

/-- C4: if either epoch descriptor declares zero public keys, `verify`
returns `false` (and in particular does not fault), whatever the other
arguments and the external collaborator do. -/
theorem verify_zero_pubkeys_false {PK : Type} (ext : Extern PK) (mem : Mem)
    (vk vk_len proof proof_len : Nat) (f l : EpochBlockFFI)
    (h : f.pubkeys_num = 0 ∨ l.pubkeys_num = 0) :
    verify ext mem vk vk_len proof proof_len f l = .ret false := by
  unfold verify verifyPipeline
  rcases h with h | h
  · rw [tryFrom_zero_pubkeys ext mem f h]
    rfl
  · cases epochBlockTryFrom ext mem f with
    | ok firstB =>
      rw [show obind (Outcome.ok firstB) = fun g => g firstB from rfl]
      rw [tryFrom_zero_pubkeys ext mem l h]
      rfl
    | error e => rfl
    | panic => rfl

/-- C4 witness: a concrete call whose first epoch declares zero keys
returns `false`. -/
theorem verify_zero_pubkeys_false_witness :
    verify wExt wMem 1 1 1 1 wFFI0 wFFI = .ret false :=
  verify_zero_pubkeys_false wExt wMem 1 1 1 1 wFFI0 wFFI (Or.inl rfl)

/-- C5: `read_slice` fails with `InvalidInput` on a zero length or null
pointer, and otherwise returns exactly the `len` bytes starting at `ptr`
as an owned sequence of length `len`. -/
theorem read_slice_spec (mem : Mem) (ptr len : Nat) :
    (len = 0 ∨ ptr = 0 → read_slice mem ptr len = .error .invalidInput) ∧
    (len ≠ 0 → ptr ≠ 0 →
      read_slice mem ptr len = .ok ((List.range len).map fun i => mem (ptr + i)) ∧
      ∀ bs, read_slice mem ptr len = .ok bs → bs.length = len) := by
  constructor
  · intro h
    unfold read_slice
    rw [if_pos h]
  · intro h1 h2
    have hcond : ¬(len = 0 ∨ ptr = 0) := by
      rintro (h | h)
      · exact h1 h
      · exact h2 h
    constructor
    · unfold read_slice
      rw [if_neg hcond]
    · intro bs hbs
      unfold read_slice at hbs
      rw [if_neg hcond] at hbs
      simp only [Except.ok.injEq] at hbs
      subst hbs
      simp

/-- C5 witness: the guard rejects a null pointer and a concrete 3-byte
read returns the 3 bytes at addresses 2, 3, 4. -/
theorem read_slice_spec_witness :
    read_slice wMem 0 5 = .error .invalidInput ∧
    read_slice wMem 2 3 = .ok [1, 1, 1] :=
  ⟨(read_slice_spec wMem 0 5).1 (Or.inr rfl),
   ((read_slice_spec wMem 2 3).2 (by decide) (by decide)).1⟩

/-- C3 counterexample: on a concrete input where every stage succeeds, the
first stage `verify` executes is building the first `EpochBlock`, not
marshaling the verifying key as the claimed order says. -/
theorem verify_stage_order_counterexample :
    (verifyTrace wExt wMem 1 1 1 1 wFFI wFFI).2.head? = some Stage.buildFirst ∧
    specClaimedStageOrder.head? = some Stage.marshalVK ∧
    Stage.buildFirst ≠ Stage.marshalVK :=
  ⟨rfl, rfl, by decide⟩

/-- C3 (amended): `verify` runs its stages in the fixed order build first
`EpochBlock`, build last `EpochBlock`, marshal the verifying-key bytes,
marshal the proof bytes, invoke the external verifier; the executed trace
is always a prefix of that order (so each stage runs at most once and the
pipeline stops at the first failing stage), and a `true` return means all
five stages ran. -/
theorem verify_stage_order {PK : Type} (ext : Extern PK) (mem : Mem)
    (vk vk_len proof proof_len : Nat) (f l : EpochBlockFFI) :
    (∃ n, (verifyTrace ext mem vk vk_len proof proof_len f l).2 =
      codeStageOrder.take n) ∧
    ((verifyTrace ext mem vk vk_len proof proof_len f l).1 = .ret true →
      (verifyTrace ext mem vk vk_len proof proof_len f l).2 = codeStageOrder) ∧
    (∀ s : Stage,
      ((verifyTrace ext mem vk vk_len proof proof_len f l).2.count s) ≤ 1) := by
  unfold verifyTrace
  cases epochBlockTryFrom ext mem f with
  | error e =>
    exact ⟨⟨1, rfl⟩,
      fun h => absurd (show FFIResult.ret false = FFIResult.ret true from h)
        (by decide),
      show ∀ s : Stage, List.count s [Stage.buildFirst] ≤ 1 from by decide⟩
  | panic =>
    exact ⟨⟨1, rfl⟩,
      fun h => absurd (show FFIResult.ret false = FFIResult.ret true from h)
        (by decide),
      show ∀ s : Stage, List.count s [Stage.buildFirst] ≤ 1 from by decide⟩
  | ok firstB =>
    cases epochBlockTryFrom ext mem l with
    | error e =>
      exact ⟨⟨2, rfl⟩,
        fun h => absurd (show FFIResult.ret false = FFIResult.ret true from h)
          (by decide),
        show ∀ s : Stage,
          List.count s [Stage.buildFirst, Stage.buildLast] ≤ 1 from by decide⟩
    | panic =>
      exact ⟨⟨2, rfl⟩,
        fun h => absurd (show FFIResult.ret false = FFIResult.ret true from h)
          (by decide),
        show ∀ s : Stage,
          List.count s [Stage.buildFirst, Stage.buildLast] ≤ 1 from by decide⟩
    | ok lastB =>
      cases read_slice mem vk vk_len with
      | error e =>
        exact ⟨⟨3, rfl⟩,
          fun h => absurd (show FFIResult.ret false = FFIResult.ret true from h)
            (by decide),
          show ∀ s : Stage,
            List.count s [Stage.buildFirst, Stage.buildLast, Stage.marshalVK] ≤ 1
            from by decide⟩
      | ok vkBytes =>
        cases read_slice mem proof proof_len with
        | error e =>
          exact ⟨⟨4, rfl⟩,
            fun h => absurd (show FFIResult.ret false = FFIResult.ret true from h)
              (by decide),
            show ∀ s : Stage, List.count s
              [Stage.buildFirst, Stage.buildLast, Stage.marshalVK,
                Stage.marshalProof] ≤ 1 from by decide⟩
        | ok proofBytes =>
          exact ⟨⟨5, rfl⟩, fun _ => rfl,
            show ∀ s : Stage, List.count s
              [Stage.buildFirst, Stage.buildLast, Stage.marshalVK,
                Stage.marshalProof, Stage.extVerify] ≤ 1 from by decide⟩

/-- C3 witness: on a concrete all-success input the executed trace is the
full code stage order. -/
theorem verify_stage_order_witness :
    (verifyTrace wExt wMem 1 1 1 1 wFFI wFFI).2 = codeStageOrder :=
  (verify_stage_order wExt wMem 1 1 1 1 wFFI wFFI).2.1 rfl

/-- C6: if building the first or the last `EpochBlock` fails, `verify`
returns `false` without ever invoking `read_slice` on the verifying-key or
proof pointers (the marshal stages never run). -/
theorem verify_build_fail_reads_no_vk_proof {PK : Type} (ext : Extern PK)
    (mem : Mem) (vk vk_len proof proof_len : Nat) (f l : EpochBlockFFI)
    (h : (¬ ∃ b, epochBlockTryFrom ext mem f = .ok b) ∨
         (¬ ∃ b, epochBlockTryFrom ext mem l = .ok b)) :
    verify ext mem vk vk_len proof proof_len f l = .ret false ∧
    Stage.marshalVK ∉ (verifyTrace ext mem vk vk_len proof proof_len f l).2 ∧
    Stage.marshalProof ∉ (verifyTrace ext mem vk vk_len proof proof_len f l).2 := by
  unfold verify verifyPipeline verifyTrace
  cases hf : epochBlockTryFrom ext mem f with
  | error e =>
    exact ⟨rfl,
      show Stage.marshalVK ∉ [Stage.buildFirst] from by decide,
      show Stage.marshalProof ∉ [Stage.buildFirst] from by decide⟩
  | panic =>
    exact ⟨rfl,
      show Stage.marshalVK ∉ [Stage.buildFirst] from by decide,
      show Stage.marshalProof ∉ [Stage.buildFirst] from by decide⟩
  | ok firstB =>
    have hl : ¬ ∃ b, epochBlockTryFrom ext mem l = .ok b := by
      rcases h with h | h
      · exact absurd ⟨firstB, hf⟩ h
      · exact h
    cases hlast : epochBlockTryFrom ext mem l with
    | error e =>
      exact ⟨rfl,
        show Stage.marshalVK ∉ [Stage.buildFirst, Stage.buildLast] from by decide,
        show Stage.marshalProof ∉ [Stage.buildFirst, Stage.buildLast] from
          by decide⟩
    | panic =>
      exact ⟨rfl,
        show Stage.marshalVK ∉ [Stage.buildFirst, Stage.buildLast] from by decide,
        show Stage.marshalProof ∉ [Stage.buildFirst, Stage.buildLast] from
          by decide⟩
    | ok lastB => exact absurd ⟨lastB, hlast⟩ hl

/-- C6 witness: with a first epoch declaring zero keys (so its build
fails), the concrete call returns `false`. -/
theorem verify_build_fail_reads_no_vk_proof_witness :
    verify wExt wMem 1 1 1 1 wFFI0 wFFI = .ret false :=
  (verify_build_fail_reads_no_vk_proof wExt wMem 1 1 1 1 wFFI0 wFFI
    (Or.inl (by
      rintro ⟨b, hb⟩
      rw [tryFrom_zero_pubkeys wExt wMem wFFI0 rfl] at hb
      exact Outcome.noConfusion hb))).1

/-- C7: `verify` is deterministic in its inputs: two calls whose memories
agree byte for byte on every buffer the call may read (verifying key,
proof, and both key buffers) and whose descriptor fields are identical
yield the same boolean. -/
theorem verify_deterministic_in_buffers {PK : Type} (ext : Extern PK)
    (m1 m2 : Mem) (vk vk_len proof proof_len : Nat) (f l : EpochBlockFFI)
    (hvk : AgreesOn m1 m2 vk vk_len)
    (hproof : AgreesOn m1 m2 proof proof_len)
    (hf : AgreesOn m1 m2 f.pubkeys (f.pubkeys_num * KEY_ENCODING_SIZE))
    (hl : AgreesOn m1 m2 l.pubkeys (l.pubkeys_num * KEY_ENCODING_SIZE)) :
    verify ext m1 vk vk_len proof proof_len f l =
      verify ext m2 vk vk_len proof proof_len f l := by
  unfold verify verifyPipeline
  rw [tryFrom_congr ext m1 m2 f hf, tryFrom_congr ext m1 m2 l hl,
    read_slice_congr m1 m2 vk vk_len hvk,
    read_slice_congr m1 m2 proof proof_len hproof]

/-- C7 witness: two concrete memories identical on all buffer ranges but
different elsewhere give the same result. -/
theorem verify_deterministic_in_buffers_witness :
    verify wExt wMem 1 1 1 1 wFFI wFFI = verify wExt wMem2 1 1 1 1 wFFI wFFI :=
  verify_deterministic_in_buffers wExt wMem wMem2 1 1 1 1 wFFI wFFI
    (by intro i hi; simp only [wMem, wMem2]; rw [if_pos (by omega)])
    (by intro i hi; simp only [wMem, wMem2]; rw [if_pos (by omega)])
    (by
      intro i hi
      have hi2 : i < 96 := by simpa [wFFI, KEY_ENCODING_SIZE] using hi
      simp only [wMem, wMem2, wFFI]
      rw [if_pos (by omega)])
    (by
      intro i hi
      have hi2 : i < 96 := by simpa [wFFI, KEY_ENCODING_SIZE] using hi
      simp only [wMem, wMem2, wFFI]
      rw [if_pos (by omega)])

/-- A successful `read_slice` returns a sequence of exactly the requested
length. -/
theorem read_slice_ok_length (mem : Mem) (ptr len : Nat) (bs : Bytes)
    (h : read_slice mem ptr len = .ok bs) : bs.length = len := by
  unfold read_slice at h
  split at h
  · exact absurd h (by simp)
  · simp only [Except.ok.injEq] at h
    subst h
    simp

/-- C8: a successfully built `EpochBlock` carries the descriptor's scalar
fields, its key list has exactly `pubkeys_num` entries, and entry `i` is
the decode of the `i`-th fixed-size chunk of the marshaled key buffer, so
buffer order is preserved with no truncation or padding. -/
theorem epochBlock_preserves_key_order {PK : Type} (ext : Extern PK)
    (mem : Mem) (src : EpochBlockFFI) (block : EpochBlock PK)
    (h : epochBlockTryFrom ext mem src = .ok block) :
    block.index = src.index ∧
    block.maximum_non_signers = src.maximum_non_signers ∧
    block.pubkeys.length = src.pubkeys_num ∧
    ∃ bytes,
      read_slice mem src.pubkeys (src.pubkeys_num * KEY_ENCODING_SIZE) =
        .ok bytes ∧
      (chunksOf KEY_ENCODING_SIZE bytes src.pubkeys_num).length =
        src.pubkeys_num ∧
      (∀ i (hc : i < (chunksOf KEY_ENCODING_SIZE bytes src.pubkeys_num).length),
        ((chunksOf KEY_ENCODING_SIZE bytes src.pubkeys_num).get ⟨i, hc⟩).length =
          KEY_ENCODING_SIZE) ∧
      (∀ i (hc : i < (chunksOf KEY_ENCODING_SIZE bytes src.pubkeys_num).length)
          (hk : i < block.pubkeys.length),
        ext.decode ((chunksOf KEY_ENCODING_SIZE bytes src.pubkeys_num).get ⟨i, hc⟩) =
          .ok (block.pubkeys.get ⟨i, hk⟩)) := by
  obtain ⟨hidx0, hmns, bytes, hr, hd⟩ := tryFrom_ok_parts ext mem src block h
  obtain ⟨hlen, hidx⟩ := decodeKeys_ok_spec ext.decode _ _ hd
  have hblen : bytes.length = src.pubkeys_num * KEY_ENCODING_SIZE :=
    read_slice_ok_length mem _ _ bytes hr
  have hclen : (chunksOf KEY_ENCODING_SIZE bytes src.pubkeys_num).length =
      src.pubkeys_num := by
    simp [chunksOf]
  refine ⟨hidx0, hmns, by rw [hlen, hclen], bytes, hr, hclen, ?_, hidx⟩
  intro i hc
  have hi : i < src.pubkeys_num := hclen ▸ hc
  have hget : (chunksOf KEY_ENCODING_SIZE bytes src.pubkeys_num).get ⟨i, hc⟩ =
      (bytes.drop (i * KEY_ENCODING_SIZE)).take KEY_ENCODING_SIZE := by
    simp [chunksOf]
  rw [hget]
  have hle : KEY_ENCODING_SIZE ≤
      src.pubkeys_num * KEY_ENCODING_SIZE - i * KEY_ENCODING_SIZE := by
    have h1 : (i + 1) * KEY_ENCODING_SIZE ≤ src.pubkeys_num * KEY_ENCODING_SIZE :=
      Nat.mul_le_mul_right _ hi
    rw [Nat.succ_mul, Nat.add_comm] at h1
    exact Nat.le_sub_of_add_le h1
  simp [List.length_take, List.length_drop, hblen]
  omega

/-- C8 witness: a concrete successful build declaring one key yields a key
list of length one. -/
theorem epochBlock_preserves_key_order_witness :
    (EpochBlock.mk 0 1 [0] : EpochBlock Nat).pubkeys.length = wFFI.pubkeys_num :=
  (epochBlock_preserves_key_order wExt wMem wFFI (EpochBlock.mk 0 1 [0])
    rfl).2.2.1

/-- C9: if every chunk before position `i` decodes and chunk `i` fails to
decode, building the `EpochBlock` fails with `KeyDecodeError`, producing no
partial result, and the decoder was invoked exactly `i + 1` times (it stops
at the first failing chunk). -/
theorem epochBlock_first_decode_fail {PK : Type} (ext : Extern PK) (mem : Mem)
    (src : EpochBlockFFI) (bytes : Bytes) (i : Nat)
    (hread : read_slice mem src.pubkeys (src.pubkeys_num * KEY_ENCODING_SIZE) =
      .ok bytes)
    (hi : i < (chunksOf KEY_ENCODING_SIZE bytes src.pubkeys_num).length)
    (hpre : ∀ j (hj : j < (chunksOf KEY_ENCODING_SIZE bytes src.pubkeys_num).length),
      j < i → ∃ k,
        ext.decode ((chunksOf KEY_ENCODING_SIZE bytes src.pubkeys_num).get ⟨j, hj⟩) =
          .ok k)
    (hfail :
      ext.decode ((chunksOf KEY_ENCODING_SIZE bytes src.pubkeys_num).get ⟨i, hi⟩) =
        .err) :
    epochBlockTryFrom ext mem src = .error .keyDecodeError ∧
    (decodeKeysCount ext.decode (chunksOf KEY_ENCODING_SIZE bytes src.pubkeys_num)).2 =
      i + 1 := by
  obtain ⟨hdk, hcount⟩ :=
    decodeKeys_first_fail ext.decode (chunksOf KEY_ENCODING_SIZE bytes src.pubkeys_num)
      i hi hpre hfail
  refine ⟨?_, hcount⟩
  unfold epochBlockTryFrom
  rw [hread]
  simp only [liftExcept, obind]
  rw [hdk]

/-- C9 witness: with a decoder that always fails, a concrete one-key build
fails with `KeyDecodeError`. -/
theorem epochBlock_first_decode_fail_witness :
    epochBlockTryFrom wExtBadKeys wMem wFFI = .error .keyDecodeError :=
  (epochBlock_first_decode_fail wExtBadKeys wMem wFFI
    ((List.range 96).map fun i => wMem (1 + i)) 0 rfl (by decide)
    (fun j hj hj0 => absurd hj0 (Nat.not_lt_zero j)) rfl).1

/-- C10: for a successfully built `EpochBlock`, the byte length re-derived
from its key sequence (number of decoded keys times the fixed per-key
encoding size) equals `pubkeys_num * KEY_ENCODING_SIZE`. -/
theorem epochBlock_key_bytes_roundtrip {PK : Type} (ext : Extern PK)
    (mem : Mem) (src : EpochBlockFFI) (block : EpochBlock PK)
    (h : epochBlockTryFrom ext mem src = .ok block) :
    block.pubkeys.length * KEY_ENCODING_SIZE =
      src.pubkeys_num * KEY_ENCODING_SIZE := by
  obtain ⟨-, -, bytes, hr, hd⟩ := tryFrom_ok_parts ext mem src block h
  obtain ⟨hlen, -⟩ := decodeKeys_ok_spec ext.decode _ _ hd
  rw [hlen]
  simp [chunksOf]

/-- C10 witness: the concrete one-key build re-derives 96 bytes, equal to
`pubkeys_num * KEY_ENCODING_SIZE` of its descriptor. -/
theorem epochBlock_key_bytes_roundtrip_witness :
    (EpochBlock.mk 0 1 [0] : EpochBlock Nat).pubkeys.length * KEY_ENCODING_SIZE =
      wFFI.pubkeys_num * KEY_ENCODING_SIZE :=
  epochBlock_key_bytes_roundtrip wExt wMem wFFI (EpochBlock.mk 0 1 [0]) rfl

end BlsSnark
